import Mathlib

/-!
A shallow embedding of the C wrapper in Sources/CppSources/HNSWLibWrapper.cpp
of the hnswlib.swift repository, together with verification of the stated
behavioural properties.  Pure control flow, label assignment, thread-count
heuristics, normalization routing and counter updates are translated from the
wrapper source line by line.  The underlying hnswlib engine
(HierarchicalNSW / BruteforceSearch / the space constructors) is not part of
the sources; the few engine behaviours the wrapper observes are modelled from
the specification and are marked as such in their doc comments.  Vectors are
an abstract type `V`; distances are modelled as integers (only their order is
ever used) and the float arithmetic inside normalize_vector is abstracted as
an arbitrary function `nrm`.
-/

/-- Space type selector (SpaceTypeL2 / SpaceTypeIP / SpaceTypeCosine of the header). -/
inductive SpaceType where
  | L2
  | IP
  | Cosine
  deriving DecidableEq

/-- Error kinds of the error taxonomy (spec section 7) used by the modelled engine calls. -/
inductive Err where
  | InvalidArgument
  | CapacityExceeded
  | InsufficientResults
  deriving DecidableEq

/-- Worker status in the multi-threaded branch of ParallelFor (wrapper lines 21-51):
a worker is waiting to claim a unit, running a claimed unit, or has left its loop. -/
inductive WStat where
  | idle
  | running (id : Nat)
  | finished
  deriving DecidableEq

/-- Shared state of one multi-threaded ParallelFor call: the atomic cursor `current`,
the exception slot `lastException` that every catch block overwrites (line 42), the
failures in the order the catch blocks ran (`obs`, recording only what the writes to
`lastException` were), and the per-worker statuses. -/
structure PFState (E : Type) where
  current : Nat
  lastException : Option E
  obs : List E
  workers : List WStat
  deriving DecidableEq

/-- One atomic event of the multi-threaded ParallelFor loop body, taken by worker `t`:
an idle worker claims the next unit (`current.fetch_add(1)`, line 32) and leaves its
loop when the claimed id is past the end (lines 34-36); a running worker completes its
claimed unit, and on failure the catch block records the exception and sets
`current = end` so that no further unit is dispatched (lines 40-45). -/
def pfStep {E : Type} (fn : Nat → Except E Unit) (endIdx : Nat) (s : PFState E) (t : Nat) :
    PFState E :=
  match s.workers.getD t WStat.finished with
  | WStat.idle =>
      let id := s.current
      if endIdx ≤ id then
        { s with current := s.current + 1, workers := s.workers.set t WStat.finished }
      else
        { s with current := s.current + 1, workers := s.workers.set t (WStat.running id) }
  | WStat.running id =>
      match fn id with
      | Except.ok _ => { s with workers := s.workers.set t WStat.idle }
      | Except.error e =>
          { s with
              lastException := some e
              obs := s.obs ++ [e]
              current := endIdx
              workers := s.workers.set t WStat.finished }
  | WStat.finished => s

/-- A complete multi-threaded ParallelFor run under the interleaving `sched` (the
sequence of worker ids taking atomic steps); the caller joins every worker before
reading the outcome (lines 49-51), so the outcome is a function of the whole run. -/
def pfRun {E : Type} (fn : Nat → Except E Unit) (start endIdx numThreads : Nat)
    (sched : List Nat) : PFState E :=
  sched.foldl (pfStep fn endIdx) (PFState.mk start none [] (List.replicate numThreads WStat.idle))

/-- Outcome propagated to the ParallelFor caller after the joins: a rethrow of
`lastException` when one was recorded (lines 52-54). -/
def pfResult {E : Type} (s : PFState E) : Except E Unit :=
  match s.lastException with
  | some e => Except.error e
  | none => Except.ok ()

/-- Thread-count resolution shared by the batch entry points: a non-positive request
resolves to the stored hardware-concurrency default (lines 194-196, 248-250, 456-458). -/
def resolveThreads (req dflt : Int) : Int := if req ≤ 0 then dflt else req

/-- Small-batch heuristic of hnswlib_index_add_items (lines 198-201) and
hnswlib_index_search_knn (lines 252-255): a batch of at most threads * 4 units is
forced to run single-threaded. -/
def forceSingleThread (size : Nat) (t : Int) : Int := if (size : Int) ≤ t * 4 then 1 else t

/-- Effective thread count of hnswlib_index_add_items (lines 194-201). -/
def hnsw_add_effective_threads (req dflt : Int) (rows : Nat) : Int :=
  forceSingleThread rows (resolveThreads req dflt)

/-- Effective thread count of hnswlib_index_search_knn (lines 248-255). -/
def hnsw_search_effective_threads (req dflt : Int) (query_count : Nat) : Int :=
  forceSingleThread query_count (resolveThreads req dflt)

/-- Effective thread count of hnswlib_bf_index_search_knn (lines 456-458): only the
non-positive request is resolved; there is no small-batch forcing in that function. -/
def bf_search_effective_threads (req dflt : Int) : Int := resolveThreads req dflt

/-- Modelled from the spec: the state of the HierarchicalNSW engine object (hnswlib
engine, not under src/) as far as the wrapper observes it: the runtime accuracy
parameter `ef_` (assigned by the wrapper at lines 182 and 307), the capacity and
construction parameters, the stored (label, vector) pairs, and the tombstoned labels
(spec sections 3 and 4.2).  Graph topology is not observable through any claim and is
not modelled. -/
structure Engine (V : Type) where
  ef_ : Nat
  max_elements_ : Nat
  M_ : Nat
  cur_element_count : Nat
  points : List (Nat × V)
  deleted : List Nat
  deriving DecidableEq

/-- Modelled from the spec: HierarchicalNSW::addPoint (engine not under src/).
Spec section 4.2: stores the (label, vector) pair; "If the graph is at capacity and
replace_deleted is false, fails with CapacityExceeded."  The tombstone-slot reuse
path is not exercised by any claim and is not modelled. -/
def Engine.addPoint {V : Type} (e : Engine V) (v : V) (id : Nat) : Except Err (Engine V) :=
  if e.max_elements_ ≤ e.cur_element_count then Except.error Err.CapacityExceeded
  else Except.ok { e with
                     points := e.points ++ [(id, v)]
                     cur_element_count := e.cur_element_count + 1 }

/-- Entries of the engine whose label is not tombstoned. -/
def liveEntries {V : Type} (e : Engine V) : List (Nat × V) :=
  e.points.filter (fun p => !(e.deleted.contains p.1))

/-- Comparison of two (distance, label) result pairs by distance. -/
def distLE (a b : Int × Nat) : Prop := a.1 ≤ b.1

instance : DecidableRel distLE := fun a b => inferInstanceAs (Decidable (a.1 ≤ b.1))

instance : IsTotal (Int × Nat) distLE := ⟨fun a b => Int.le_total a.1 b.1⟩

instance : IsTrans (Int × Nat) distLE := ⟨fun _ _ _ h1 h2 => le_trans h1 h2⟩

/-- Modelled from the spec: HierarchicalNSW::searchKnn (engine not under src/).
Spec section 4.2: "returning the k closest live (non-tombstoned) results ordered by
ascending distance", with fewer than k results exactly when fewer than k live
candidates are reachable.  Reachability is modelled as every live stored entry (the
real engine can reach fewer when ef or M are too small relative to k; no claim
depends on the distinction beyond the result count, which the wrapper checks). -/
def engineSearchKnn {V : Type} (dist : V → V → Int) (e : Engine V) (q : V) (k : Nat) :
    List (Int × Nat) :=
  (List.insertionSort distLE ((liveEntries e).map (fun p => (dist q p.2, p.1)))).take k

/-- Pop order of the std::priority_queue holding the ascending result list: the
max-heap pops its pairs in non-increasing distance order. -/
def heapPops (l : List (Int × Nat)) : List (Int × Nat) := l.reverse

/-- The wrapper writes the successive pops into positions k-1 down to 0 of the
per-query output block (lines 266-271, 286-291, 471-476), reversing the pop order. -/
def fillBlock (pops : List (Int × Nat)) : List (Int × Nat) := pops.reverse

/-- The HNSWIndex wrapper object (lines 69-111).  `space` records which metric space
the constructor allocated; `num_threads_default` is the hardware concurrency captured
at construction time (line 87). -/
structure HNSW (V : Type) where
  space_type : SpaceType
  dim : Int
  normalize : Bool
  index_inited : Bool
  ep_added : Bool
  num_threads_default : Int
  cur_l : Nat
  appr_alg : Option (Engine V)
  space : Option SpaceType
  default_ef : Nat
  deriving DecidableEq

/-- Modelled from the spec: the metric-space constructors L2Space and
InnerProductSpace (hnswlib engine, not under src/).  Spec section 4.1:
"Construction fails (InvalidArgument) if dimension ≤ 0.". -/
def mkSpace (t : SpaceType) (dim : Int) : Except Err SpaceType :=
  if dim ≤ 0 then Except.error Err.InvalidArgument else Except.ok t

/-- HNSWIndex constructor body (lines 81-101): the member initialisers, the space
allocation by kind, and normalize set exactly in the Cosine branch (line 99).
`hw` is the hardware concurrency of the host (line 87). -/
def HNSW.make (V : Type) (hw : Int) (t : SpaceType) (dim : Int) : Except Err (HNSW V) :=
  match mkSpace t dim with
  | Except.error er => Except.error er
  | Except.ok sp =>
      Except.ok { space_type := t
                  dim := dim
                  normalize := decide (t = SpaceType.Cosine)
                  index_inited := false
                  ep_added := false
                  num_threads_default := hw
                  cur_l := 0
                  appr_alg := none
                  space := some sp
                  default_ef := 10 }

/-- hnswlib_index_create (lines 155-162): a constructor failure is caught and
reported as a null handle. -/
def hnswlib_index_create (V : Type) (hw : Int) (t : SpaceType) (dim : Int) :
    Option (HNSW V) :=
  match HNSW.make V hw t dim with
  | Except.ok s => some s
  | Except.error _ => none

/-- hnswlib_index_init (lines 170-188): rejects a null handle or null space, resets
cur_l, replaces the engine by a fresh one and applies the stored default_ef to it
(line 182).  Allocation failure of the fresh engine is not modelled.  The argument
order of the C function is kept; random_seed and allow_replace_deleted do not
influence anything a claim observes. -/
def hnswlib_index_init {V : Type} (idx : Option (HNSW V))
    (max_elements M ef_construction random_seed : Nat) (allow_replace_deleted : Bool) :
    Option (HNSW V) × Bool :=
  match idx with
  | none => (none, false)
  | some s =>
      match s.space with
      | none => (some s, false)
      | some _ =>
          (some { s with
                    cur_l := 0
                    appr_alg := some (Engine.mk s.default_ef max_elements M 0 [] [])
                    index_inited := true
                    ep_added := false }, true)

/-- hnswlib_index_set_ef (lines 302-309): stores the value as the default and, when
an engine exists, applies it to the engine immediately. -/
def hnswlib_index_set_ef {V : Type} (idx : Option (HNSW V)) (ef : Nat) :
    Option (HNSW V) :=
  match idx with
  | none => none
  | some s =>
      some { s with
               default_ef := ef
               appr_alg := s.appr_alg.map (fun e => { e with ef_ := ef }) }

/-- hnswlib_index_get_ef (lines 321-324): 0 on a null or uninitialized handle. -/
def hnswlib_index_get_ef {V : Type} (idx : Option (HNSW V)) : Nat :=
  match idx with
  | none => 0
  | some s =>
      match s.appr_alg with
      | none => 0
      | some e => e.ef_

/-- hnswlib_index_mark_deleted (lines 363-371).  The engine markDelete is modelled
from the spec (section 4.2: toggles the node's tombstone flag; the engine throws on
an unknown or already tombstoned label, and the wrapper catches and swallows the
exception, leaving the state unchanged). -/
def hnswlib_index_mark_deleted {V : Type} (idx : Option (HNSW V)) (label : Nat) :
    Option (HNSW V) :=
  match idx with
  | none => none
  | some s =>
      match s.appr_alg with
      | none => some s
      | some e =>
          if (e.points.map Prod.fst).contains label && !(e.deleted.contains label) then
            some { s with appr_alg := some { e with deleted := label :: e.deleted } }
          else some s

/-- Label of batch row `row` (lines 205, 221, 231 and 433): the explicit id when an
ids array is supplied, otherwise the auto counter at call entry plus the batch
position. -/
def rowLabel (ids : Option (List Nat)) (cur_l row : Nat) : Nat :=
  match ids with
  | some l => l.getD row 0
  | none => cur_l + row

/-- Vector of batch row `row` as handed to the engine: the raw row, run through
normalize_vector first exactly when the index is in cosine mode (lines 204-214,
219-234, 435-441).  `nrm` stands for normalize_vector (lines 59-66), whose float
arithmetic is outside this model. -/
def rowVec {V : Type} [Inhabited V] (nrm : V → V) (normalize : Bool) (data : List V)
    (row : Nat) : V :=
  if normalize then nrm (data.getD row default) else data.getD row default

/-- The per-row loop body of hnswlib_index_add_items, executed once per entry of
`sched` in schedule order: addPoint with the row's (possibly normalized) vector and
its position-determined label (lines 219-234).  Returns the engine state, whether
every row succeeded, and the rows completed in order; a failing row stops the run,
since ParallelFor dispatches no further unit after a failure. -/
def runRows {V : Type} [Inhabited V] (nrm : V → V) (normalize : Bool) (data : List V)
    (ids : Option (List Nat)) (cur_l : Nat) :
    Engine V → List Nat → Engine V × Bool × List Nat
  | e, [] => (e, true, [])
  | e, r :: rs =>
      match Engine.addPoint e (rowVec nrm normalize data r) (rowLabel ids cur_l r) with
      | Except.error _ => (e, false, [])
      | Except.ok e1 =>
          match runRows nrm normalize data ids cur_l e1 rs with
          | (e2, ok, done) => (e2, ok, r :: done)

/-- Outcome of the add_items model: the index state left behind (also on failure),
the boolean result of the C call, and the rows handed to addPoint in insertion
order. -/
structure AddItemsResult (V : Type) where
  index : Option (HNSW V)
  ok : Bool
  trace : List Nat
  deriving DecidableEq

/-- The stored (label, vector) pairs of the engine behind an add_items outcome. -/
def AddItemsResult.enginePoints {V : Type} (r : AddItemsResult V) : List (Nat × V) :=
  match r.index with
  | some s =>
      match s.appr_alg with
      | some e => e.points
      | none => []
  | none => []

/-- The auto-label counter of the index behind an add_items outcome. -/
def AddItemsResult.curL {V : Type} (r : AddItemsResult V) : Nat :=
  match r.index with
  | some s => s.cur_l
  | none => 0

/-- hnswlib_index_add_items (lines 190-242).  `sched` is the order in which the
ParallelFor workers happen to claim the loop rows; the resolved thread count
(lines 194-201) determines only how many workers serve the schedule, never which
label or vector a row gets.  When the entry point has not been added, row 0 is
inserted by the calling thread before the loop and the loop starts at row 1
(lines 203-217); otherwise the loop covers every row from 0.  On success the auto
counter advances by the row count (line 236); an exception leaves it unchanged. -/
def hnswlib_index_add_items {V : Type} [Inhabited V] (nrm : V → V) (idx : Option (HNSW V))
    (data : List V) (dimArg : Int) (ids : Option (List Nat)) (num_threads : Int)
    (replace_deleted : Bool) (sched : List Nat) : AddItemsResult V :=
  match idx with
  | none => AddItemsResult.mk none false []
  | some s =>
      match s.appr_alg with
      | none => AddItemsResult.mk (some s) false []
      | some e =>
          if dimArg ≠ s.dim then AddItemsResult.mk (some s) false []
          else
            let rows := data.length
            let _nt := hnsw_add_effective_threads num_threads s.num_threads_default rows
            if s.ep_added then
              match runRows nrm s.normalize data ids s.cur_l e sched with
              | (e2, ok, done) =>
                  AddItemsResult.mk
                    (some { s with
                              appr_alg := some e2
                              cur_l := if ok then s.cur_l + rows else s.cur_l })
                    ok done
            else
              match Engine.addPoint e (rowVec nrm s.normalize data 0)
                  (rowLabel ids s.cur_l 0) with
              | Except.error _ => AddItemsResult.mk (some s) false []
              | Except.ok e1 =>
                  match runRows nrm s.normalize data ids s.cur_l e1 sched with
                  | (e2, ok, done) =>
                      AddItemsResult.mk
                        (some { s with
                                  appr_alg := some e2
                                  ep_added := true
                                  cur_l := if ok then s.cur_l + rows else s.cur_l })
                        ok (0 :: done)

/-- One query of the search batch, already reduced to the vector handed to the
engine: searchKnn, the result-size check whose failure throws "Cannot return
results. Probably ef or M is too small" (lines 262-264 and 282-284), and the pop
loop writing the per-query block (lines 266-271 and 286-291). -/
def searchOneQueryVec {V : Type} (dist : V → V → Int) (e : Engine V) (k : Nat) (qv : V) :
    Option (List (Int × Nat)) :=
  let res := engineSearchKnn dist e qv k
  if res.length = k then some (fillBlock (heapPops res)) else none

/-- The per-query loop of hnswlib_index_search_knn over the batch, in query order
(each query writes a disjoint block of the output arrays, so which worker runs which
query cannot change the successful output); a failing query makes the whole call
fail whatever the other queries produced (first-error-wins of ParallelFor plus the
catch at lines 296-299). -/
def searchQueries {V : Type} (dist : V → V → Int) (nrm : V → V) (normalize : Bool)
    (e : Engine V) (k : Nat) : List V → Option (List (List (Int × Nat)))
  | [] => some []
  | q :: qs =>
      match searchOneQueryVec dist e k (if normalize then nrm q else q) with
      | none => none
      | some b =>
          match searchQueries dist nrm normalize e k qs with
          | none => none
          | some bs => some (b :: bs)

/-- hnswlib_index_search_knn (lines 244-300): the null checks, the thread heuristic
(lines 248-255), then the batch with per-query normalization exactly in cosine mode.
Returns the per-query blocks in query order, or none when the C call returns
false. -/
def hnswlib_index_search_knn {V : Type} (dist : V → V → Int) (nrm : V → V)
    (idx : Option (HNSW V)) (queries : List V) (k : Nat) (num_threads : Int) :
    Option (List (List (Int × Nat))) :=
  match idx with
  | none => none
  | some s =>
      match s.appr_alg with
      | none => none
      | some e =>
          let _nt := hnsw_search_effective_threads num_threads s.num_threads_default
            queries.length
          searchQueries dist nrm s.normalize e k queries

/-- The engine behind an index handle, when the handle is non-null and initialized. -/
def engineOf {V : Type} (idx : Option (HNSW V)) : Option (Engine V) :=
  match idx with
  | none => none
  | some s => s.appr_alg

/-- Modelled from the spec: the BruteforceSearch engine object (not under src/): a
fixed capacity and the stored (label, vector) pairs (spec section 4.3). -/
structure BFEngine (V : Type) where
  maxelements : Nat
  cur_element_count : Nat
  points : List (Nat × V)
  deriving DecidableEq

/-- Modelled from the spec: BruteforceSearch::addPoint (section 4.3): appends the
pair; "capacity is fixed at init and insertion beyond it fails with
CapacityExceeded". -/
def BFEngine.addPoint {V : Type} (e : BFEngine V) (v : V) (id : Nat) :
    Except Err (BFEngine V) :=
  if e.maxelements ≤ e.cur_element_count then Except.error Err.CapacityExceeded
  else Except.ok { e with
                     points := e.points ++ [(id, v)]
                     cur_element_count := e.cur_element_count + 1 }

/-- The BFIndex wrapper object (lines 114-150). -/
structure BF (V : Type) where
  space_type : SpaceType
  dim : Int
  normalize : Bool
  num_threads_default : Int
  cur_l : Nat
  alg : Option (BFEngine V)
  space : Option SpaceType
  deriving DecidableEq

/-- The sequential row loop of hnswlib_bf_index_add_items (lines 432-442). -/
def bfRunRows {V : Type} [Inhabited V] (nrm : V → V) (normalize : Bool) (data : List V)
    (ids : Option (List Nat)) (cur_l : Nat) :
    BFEngine V → List Nat → BFEngine V × Bool
  | e, [] => (e, true)
  | e, r :: rs =>
      match BFEngine.addPoint e (rowVec nrm normalize data r) (rowLabel ids cur_l r) with
      | Except.error _ => (e, false)
      | Except.ok e1 => bfRunRows nrm normalize data ids cur_l e1 rs

/-- hnswlib_bf_index_add_items (lines 428-450): strictly sequential over the rows
(the C function has no thread argument); the auto counter advances by the row count
on success (line 444). -/
def hnswlib_bf_index_add_items {V : Type} [Inhabited V] (nrm : V → V) (idx : Option (BF V))
    (data : List V) (dimArg : Int) (ids : Option (List Nat)) : Option (BF V) × Bool :=
  match idx with
  | none => (none, false)
  | some s =>
      match s.alg with
      | none => (some s, false)
      | some e =>
          if dimArg ≠ s.dim then (some s, false)
          else
            match bfRunRows nrm s.normalize data ids s.cur_l e (List.range data.length) with
            | (e2, ok) =>
                (some { s with
                          alg := some e2
                          cur_l := if ok then s.cur_l + data.length else s.cur_l }, ok)

/-- The auto-label counter of a brute-force handle (0 for a null handle). -/
def bfCurL {V : Type} (idx : Option (BF V)) : Nat :=
  match idx with
  | none => 0
  | some s => s.cur_l

/-- BFIndex constructor body (lines 123-140): the member initialisers, the space
allocation by kind (through the spec-modelled mkSpace), and normalize set exactly in
the Cosine branch (line 138). -/
def BF.make (V : Type) (hw : Int) (t : SpaceType) (dim : Int) : Except Err (BF V) :=
  match mkSpace t dim with
  | Except.error er => Except.error er
  | Except.ok sp =>
      Except.ok { space_type := t
                  dim := dim
                  normalize := decide (t = SpaceType.Cosine)
                  num_threads_default := hw
                  cur_l := 0
                  alg := none
                  space := some sp }

/-- hnswlib_bf_index_create (lines 396-403): a constructor failure is caught and
reported as a null handle. -/
def hnswlib_bf_index_create (V : Type) (hw : Int) (t : SpaceType) (dim : Int) :
    Option (BF V) :=
  match BF.make V hw t dim with
  | Except.ok s => some s
  | Except.error _ => none

/-- Modelled from the spec: BruteforceSearch::searchKnn (engine not under src/).
Spec section 4.3: "computes distance to every stored vector and returns the k
smallest"; the pop order of the returned max-heap is non-increasing distance.  The
ascending-label tie-break of the spec is not modelled (no claim depends on it). -/
def bfEngineSearchKnn {V : Type} (dist : V → V → Int) (e : BFEngine V) (q : V)
    (k : Nat) : List (Int × Nat) :=
  (List.insertionSort distLE (e.points.map (fun p => (dist q p.2, p.1)))).take k

/-- One query of the brute-force search batch (lines 461-476), already reduced to
the vector handed to the engine: unlike the approximate path there is no
result-size check; the pop loop writes the block back to front. -/
def bfSearchBlock {V : Type} (dist : V → V → Int) (e : BFEngine V) (k : Nat)
    (qv : V) : List (Int × Nat) :=
  fillBlock (heapPops (bfEngineSearchKnn dist e qv k))

/-- The per-query loop of hnswlib_bf_index_search_knn over the batch, in query
order, with per-query normalization exactly in cosine mode (lines 463-468). -/
def bfSearchQueries {V : Type} (dist : V → V → Int) (nrm : V → V) (normalize : Bool)
    (e : BFEngine V) (k : Nat) : List V → List (List (Int × Nat))
  | [] => []
  | q :: qs =>
      bfSearchBlock dist e k (if normalize then nrm q else q)
        :: bfSearchQueries dist nrm normalize e k qs

/-- hnswlib_bf_index_search_knn (lines 452-484): the null checks, the thread
resolution without small-batch forcing (lines 456-458), then the batch. -/
def hnswlib_bf_index_search_knn {V : Type} (dist : V → V → Int) (nrm : V → V)
    (idx : Option (BF V)) (queries : List V) (k : Nat) (num_threads : Int) :
    Option (List (List (Int × Nat))) :=
  match idx with
  | none => none
  | some s =>
      match s.alg with
      | none => none
      | some e =>
          let _nt := bf_search_effective_threads num_threads s.num_threads_default
          some (bfSearchQueries dist nrm s.normalize e k queries)

/-- The stored (label, vector) pairs of the engine behind a brute-force handle. -/
def bfEnginePoints {V : Type} (idx : Option (BF V)) : List (Nat × V) :=
  match idx with
  | none => []
  | some s =>
      match s.alg with
      | none => []
      | some e => e.points

/-- A created and initialized cosine-mode brute-force index of capacity 10. -/
def egBFCos : BF Nat :=
  BF.mk SpaceType.Cosine 1 true 8 0 (some (BFEngine.mk 10 0 [])) (some SpaceType.Cosine)

/-- Concrete example states used by the witness theorems. -/
def egBase : HNSW Nat :=
  HNSW.mk SpaceType.L2 3 false false false 8 0 none (some SpaceType.L2) 10

/-- The index state produced by create(L2, 1) followed by init(100, 16, 200, 1, false). -/
def egInited : HNSW Nat :=
  HNSW.mk SpaceType.L2 1 false true false 8 0 (some (Engine.mk 10 100 16 0 [] []))
    (some SpaceType.L2) 10

lemma egInited_eq :
    (hnswlib_index_init (hnswlib_index_create Nat 8 SpaceType.L2 1) 100 16 200 1 false).1
      = some egInited := by decide

/-- A created and initialized brute-force index of capacity 10. -/
def egBF : BF Nat :=
  BF.mk SpaceType.L2 1 false 8 0 (some (BFEngine.mk 10 0 [])) (some SpaceType.L2)

/-- A created and initialized cosine-mode index over 1-component vectors. -/
def egCos : HNSW Nat :=
  HNSW.mk SpaceType.Cosine 1 true true false 8 0 (some (Engine.mk 10 100 16 0 [] []))
    (some SpaceType.Cosine) 10

/-- A concrete distance function on 1-component Nat vectors: squared difference. -/
def egDist (a b : Nat) : Int := ((a : Int) - (b : Int)) * ((a : Int) - (b : Int))

/-- The engine state behind egSearch: two stored points, label 1 tombstoned. -/
def egEngine : Engine Nat := Engine.mk 10 100 16 2 [(0, 5), (1, 9)] [1]

/-- The index state after inserting [5, 9] into egInited and tombstoning label 1. -/
def egSearch : HNSW Nat :=
  HNSW.mk SpaceType.L2 1 false true true 8 2 (some egEngine) (some SpaceType.L2) 10

/-- A work function for which every unit fails: unit i signals error 10 * (i + 1). -/
def fnC8 (i : Nat) : Except Nat Unit := Except.error (10 * (i + 1))

lemma addPoint_ok_points {V : Type} (e : Engine V) (v : V) (id : Nat) (e1 : Engine V)
    (h : Engine.addPoint e v id = Except.ok e1) :
    e1.points = e.points ++ [(id, v)] := by
  unfold Engine.addPoint at h
  split at h
  · exact absurd h (by simp)
  · cases h
    rfl

lemma runRows_ok_spec {V : Type} [Inhabited V] (nrm : V → V) (nz : Bool) (data : List V)
    (ids : Option (List Nat)) (cur_l : Nat) (sched : List Nat) : ∀ (e : Engine V),
    (runRows nrm nz data ids cur_l e sched).2.1 = true →
    (runRows nrm nz data ids cur_l e sched).2.2 = sched
    ∧ (runRows nrm nz data ids cur_l e sched).1.points =
        e.points ++ sched.map (fun row => (rowLabel ids cur_l row, rowVec nrm nz data row)) := by
  induction sched with
  | nil => intro e h; simp [runRows]
  | cons r rs ih =>
      intro e h
      cases hap : Engine.addPoint e (rowVec nrm nz data r) (rowLabel ids cur_l r) with
      | error er => simp [runRows, hap] at h
      | ok e1 =>
          rcases hr : runRows nrm nz data ids cur_l e1 rs with ⟨e2, ok2, done⟩
          have hrr : runRows nrm nz data ids cur_l e (r :: rs) = (e2, ok2, r :: done) := by
            simp [runRows, hap, hr]
          rw [hrr] at h ⊢
          simp only at h
          obtain ⟨hdone, hp⟩ := ih e1 (by rw [hr]; exact h)
          rw [hr] at hdone hp
          simp only at hdone hp
          have hpts := addPoint_ok_points e _ _ e1 hap
          refine ⟨by simp [hdone], ?_⟩
          simp only [hp, hpts, List.map_cons]
          simp [List.append_assoc]

lemma runRows_done_mem {V : Type} [Inhabited V] (nrm : V → V) (nz : Bool) (data : List V)
    (ids : Option (List Nat)) (cur_l : Nat) (sched : List Nat) : ∀ (e : Engine V) (r : Nat),
    r ∈ (runRows nrm nz data ids cur_l e sched).2.2 → r ∈ sched := by
  induction sched with
  | nil => intro e r h; simp [runRows] at h
  | cons x rs ih =>
      intro e r h
      cases hap : Engine.addPoint e (rowVec nrm nz data x) (rowLabel ids cur_l x) with
      | error er => simp [runRows, hap] at h
      | ok e1 =>
          rcases hr : runRows nrm nz data ids cur_l e1 rs with ⟨e2, ok2, done⟩
          have hrr : runRows nrm nz data ids cur_l e (x :: rs) = (e2, ok2, x :: done) := by
            simp [runRows, hap, hr]
          rw [hrr] at h
          simp only [List.mem_cons] at h
          rcases h with h | h
          · simp [h]
          · have := ih e1 r (by rw [hr]; simpa using h)
            simp [this]

lemma add_items_curL {V : Type} [Inhabited V] (nrm : V → V) (s : HNSW V) (data : List V)
    (ids : Option (List Nat)) (t : Int) (rep : Bool) (sched : List Nat)
    (hok : (hnswlib_index_add_items nrm (some s) data s.dim ids t rep sched).ok = true) :
    (hnswlib_index_add_items nrm (some s) data s.dim ids t rep sched).curL
      = s.cur_l + data.length := by
  cases he : s.appr_alg with
  | none => simp [hnswlib_index_add_items, he] at hok
  | some e =>
      by_cases hep : s.ep_added
      · rcases hr : runRows nrm s.normalize data ids s.cur_l e sched with ⟨e2, ok2, done⟩
        simp [hnswlib_index_add_items, he, hep, hr] at hok
        simp [hnswlib_index_add_items, he, hep, hr, AddItemsResult.curL, hok]
      · cases hap : Engine.addPoint e (rowVec nrm s.normalize data 0) (rowLabel ids s.cur_l 0) with
        | error er => simp [hnswlib_index_add_items, he, hep, hap] at hok
        | ok e1 =>
            rcases hr : runRows nrm s.normalize data ids s.cur_l e1 sched with ⟨e2, ok2, done⟩
            simp [hnswlib_index_add_items, he, hep, hap, hr] at hok
            simp [hnswlib_index_add_items, he, hep, hap, hr, AddItemsResult.curL, hok]

lemma bf_add_items_curL {V : Type} [Inhabited V] (nrm : V → V) (s : BF V) (data : List V)
    (ids : Option (List Nat))
    (hok : (hnswlib_bf_index_add_items nrm (some s) data s.dim ids).2 = true) :
    bfCurL (hnswlib_bf_index_add_items nrm (some s) data s.dim ids).1
      = s.cur_l + data.length := by
  cases he : s.alg with
  | none => simp [hnswlib_bf_index_add_items, he] at hok
  | some e =>
      rcases hr : bfRunRows nrm s.normalize data ids s.cur_l e (List.range data.length) with
        ⟨e2, ok2⟩
      simp [hnswlib_bf_index_add_items, he, hr] at hok
      simp [hnswlib_bf_index_add_items, he, hr, bfCurL, hok]

/-- C9: after every successful add_items call with a batch of n rows, on either index
type, the internal auto-label counter cur_l advances by exactly n (lines 236 and
444), also when explicit labels were supplied; a later auto-labelled batch therefore
starts at the counter value that skips those n positions. -/
theorem addItems_advances_counter_by_rows {V : Type} [Inhabited V] (nrm : V → V)
    (s : HNSW V) (data : List V) (ids : Option (List Nat)) (t : Int) (rep : Bool)
    (sched : List Nat) (sb : BF V) (datab : List V) (idsb : Option (List Nat)) :
    ((hnswlib_index_add_items nrm (some s) data s.dim ids t rep sched).ok = true →
       (hnswlib_index_add_items nrm (some s) data s.dim ids t rep sched).curL
         = s.cur_l + data.length)
    ∧ ((hnswlib_bf_index_add_items nrm (some sb) datab sb.dim idsb).2 = true →
       bfCurL (hnswlib_bf_index_add_items nrm (some sb) datab sb.dim idsb).1
         = sb.cur_l + datab.length) :=
  ⟨fun hok => add_items_curL nrm s data ids t rep sched hok,
   fun hok => bf_add_items_curL nrm sb datab idsb hok⟩

/-- Witness for C9: a 2-row batch with explicit labels advances the counter of the
approximate index from 0 to 2, and a 1-row batch advances the brute-force counter
from 0 to 1. -/
theorem addItems_advances_counter_witness :
    (hnswlib_index_add_items id (some egInited) [5, 6] egInited.dim (some [100, 200]) 1
        false [1]).curL = egInited.cur_l + 2
    ∧ bfCurL (hnswlib_bf_index_add_items id (some egBF) [7] egBF.dim none).1
        = egBF.cur_l + 1 :=
  ⟨(addItems_advances_counter_by_rows id egInited [5, 6] (some [100, 200]) 1 false [1]
      egBF [7] none).1 (by decide),
   (addItems_advances_counter_by_rows id egInited [5, 6] (some [100, 200]) 1 false [1]
      egBF [7] none).2 (by decide)⟩

/-- C7: creating an index with dimension d ≤ 0 returns a null handle rather than a
usable index: the metric-space constructor (modelled from the spec) signals
InvalidArgument and hnswlib_index_create catches the failure (lines 155-162). -/
theorem create_nonpositive_dim_fails {V : Type} (hw : Int) (t : SpaceType) (d : Int)
    (hd : d ≤ 0) : hnswlib_index_create V hw t d = none := by
  simp [hnswlib_index_create, HNSW.make, mkSpace, hd]

/-- Witness for C7: dimension 0 under the L2 metric yields a null handle. -/
theorem create_nonpositive_dim_fails_witness :
    hnswlib_index_create Nat 8 SpaceType.L2 0 = none :=
  create_nonpositive_dim_fails 8 SpaceType.L2 0 (by decide)

/-- C10: a set_ef on a created but uninitialized index is not lost: the value is
stored in default_ef (lines 302-309) and applied to the fresh engine by every init
(line 182), and get_ef reports 0 on a null or uninitialized handle (lines 321-324). -/
theorem setEf_persists_through_init {V : Type} (s : HNSW V) (v me M efc seed : Nat)
    (rep : Bool) (hsp : s.space.isSome = true) :
    hnswlib_index_get_ef (none : Option (HNSW V)) = 0
    ∧ (s.appr_alg = none → hnswlib_index_get_ef (some s) = 0)
    ∧ (hnswlib_index_init (hnswlib_index_set_ef (some s) v) me M efc seed rep).2 = true
    ∧ hnswlib_index_get_ef
        (hnswlib_index_init (hnswlib_index_set_ef (some s) v) me M efc seed rep).1 = v := by
  cases hs : s.space with
  | none => rw [hs] at hsp; simp at hsp
  | some sp =>
      refine ⟨rfl, fun h => by simp [hnswlib_index_get_ef, h], ?_, ?_⟩ <;>
        simp [hnswlib_index_init, hnswlib_index_set_ef, hnswlib_index_get_ef, hs]

/-- Witness for C10: set_ef 42 on the uninitialized egBase index reads back 0 before
init and 42 after init. -/
theorem setEf_persists_through_init_witness :
    hnswlib_index_get_ef (none : Option (HNSW Nat)) = 0
    ∧ (egBase.appr_alg = none → hnswlib_index_get_ef (some egBase) = 0)
    ∧ (hnswlib_index_init (hnswlib_index_set_ef (some egBase) 42) 100 16 200 77 false).2
        = true
    ∧ hnswlib_index_get_ef
        (hnswlib_index_init (hnswlib_index_set_ef (some egBase) 42) 100 16 200 77 false).1
        = 42 :=
  setEf_persists_through_init egBase 42 100 16 200 77 false (by decide)

/-- C5 counterexample: hnswlib_bf_index_search_knn has no small-batch forcing.  A
brute-force search batch of 4 queries with 2 requested threads satisfies
4 ≤ 2 * 4, yet its effective thread count stays 2; the approximate-index search
with the same numbers is forced to 1. -/
theorem bf_search_small_batch_not_forced :
    bf_search_effective_threads 2 8 = 2
    ∧ ((4 : Nat) : Int) ≤ 2 * 4
    ∧ bf_search_effective_threads 2 8 ≠ 1
    ∧ hnsw_search_effective_threads 2 8 4 = 1 := by decide

/-- C5 amended: the small-batch single-thread forcing (size ≤ threads * 4) applies
to the approximate-index add_items and search_knn batch entry points; the
brute-force search only resolves a non-positive request to the hardware-concurrency
default and keeps the requested thread count even for a small batch (brute-force
add_items is unconditionally sequential). -/
theorem small_batch_single_thread_amended (req dflt : Int) (rows qc : Nat) :
    ((rows : Int) ≤ resolveThreads req dflt * 4 →
        hnsw_add_effective_threads req dflt rows = 1)
    ∧ ((qc : Int) ≤ resolveThreads req dflt * 4 →
        hnsw_search_effective_threads req dflt qc = 1)
    ∧ (req ≤ 0 → resolveThreads req dflt = dflt)
    ∧ (0 < req → resolveThreads req dflt = req)
    ∧ bf_search_effective_threads req dflt = resolveThreads req dflt := by
  refine ⟨fun h => ?_, fun h => ?_, fun h => ?_, fun h => ?_, rfl⟩
  · simp [hnsw_add_effective_threads, forceSingleThread, h]
  · simp [hnsw_search_effective_threads, forceSingleThread, h]
  · simp [resolveThreads, h]
  · rw [resolveThreads, if_neg (by omega)]

/-- Witness for the amended C5: with a request of -1 resolved to 8 default threads,
a 3-row add batch and a 4-query search batch are both forced single-threaded, and
the brute-force search keeps the resolved count. -/
theorem small_batch_single_thread_amended_witness :
    hnsw_add_effective_threads (-1) 8 3 = 1
    ∧ hnsw_search_effective_threads (-1) 8 4 = 1
    ∧ resolveThreads (-1) 8 = 8
    ∧ bf_search_effective_threads (-1) 8 = resolveThreads (-1) 8 :=
  ⟨(small_batch_single_thread_amended (-1) 8 3 4).1 (by decide),
   (small_batch_single_thread_amended (-1) 8 3 4).2.1 (by decide),
   (small_batch_single_thread_amended (-1) 8 3 4).2.2.1 (by decide),
   (small_batch_single_thread_amended (-1) 8 3 4).2.2.2.2⟩

lemma add_items_points_spec {V : Type} [Inhabited V] (nrm : V → V) (s : HNSW V)
    (e : Engine V) (data : List V) (ids : Option (List Nat)) (t : Int) (rep : Bool)
    (sched : List Nat) (he : s.appr_alg = some e)
    (hok : (hnswlib_index_add_items nrm (some s) data s.dim ids t rep sched).ok = true) :
    (hnswlib_index_add_items nrm (some s) data s.dim ids t rep sched).trace
        = (if s.ep_added then sched else 0 :: sched)
    ∧ (hnswlib_index_add_items nrm (some s) data s.dim ids t rep sched).enginePoints
        = e.points ++ (if s.ep_added then sched else 0 :: sched).map
            (fun row => (rowLabel ids s.cur_l row, rowVec nrm s.normalize data row)) := by
  by_cases hep : s.ep_added
  · rcases hr : runRows nrm s.normalize data ids s.cur_l e sched with ⟨e2, ok2, done⟩
    simp [hnswlib_index_add_items, he, hep, hr] at hok
    obtain ⟨hdone, hp⟩ := runRows_ok_spec nrm s.normalize data ids s.cur_l sched e
      (by rw [hr]; exact hok)
    rw [hr] at hdone hp
    simp only at hdone hp
    simp [hnswlib_index_add_items, he, hep, hr, AddItemsResult.enginePoints, hdone, hp]
  · cases hap : Engine.addPoint e (rowVec nrm s.normalize data 0) (rowLabel ids s.cur_l 0) with
    | error er => simp [hnswlib_index_add_items, he, hep, hap] at hok
    | ok e1 =>
        rcases hr : runRows nrm s.normalize data ids s.cur_l e1 sched with ⟨e2, ok2, done⟩
        simp [hnswlib_index_add_items, he, hep, hap, hr] at hok
        obtain ⟨hdone, hp⟩ := runRows_ok_spec nrm s.normalize data ids s.cur_l sched e1
          (by rw [hr]; exact hok)
        rw [hr] at hdone hp
        simp only at hdone hp
        have hpts := addPoint_ok_points e _ _ e1 hap
        refine ⟨by simp [hnswlib_index_add_items, he, hep, hap, hr, hdone], ?_⟩
        simp only [hnswlib_index_add_items, he, hep, hap, hr, AddItemsResult.enginePoints,
          List.map_cons, if_neg (by simp : ¬ s.dim ≠ s.dim)]
        simp [hp, hpts, hdone, List.append_assoc]

/-- C3: the label of the vector at batch position row is ids[row] when explicit ids
are supplied and cur_l + row otherwise (lines 205, 221, 231) — a function of the
batch position and the counter at call entry only; two successful runs of the same
batch from the same state, under any two requested thread counts and any two orders
in which the workers claim the rows, produce the same label-to-vector mapping. -/
theorem addItems_labels_schedule_independent {V : Type} [Inhabited V] (nrm : V → V)
    (s : HNSW V) (e : Engine V) (data : List V) (ids : Option (List Nat)) (t1 t2 : Int)
    (rep : Bool) (sched1 sched2 : List Nat) (he : s.appr_alg = some e)
    (hperm : sched1.Perm sched2)
    (h1 : (hnswlib_index_add_items nrm (some s) data s.dim ids t1 rep sched1).ok = true)
    (h2 : (hnswlib_index_add_items nrm (some s) data s.dim ids t2 rep sched2).ok = true) :
    (∀ row, rowLabel ids s.cur_l row =
        match ids with
        | some l => l.getD row 0
        | none => s.cur_l + row)
    ∧ ((hnswlib_index_add_items nrm (some s) data s.dim ids t1 rep sched1).enginePoints).Perm
        ((hnswlib_index_add_items nrm (some s) data s.dim ids t2 rep sched2).enginePoints) := by
  refine ⟨fun row => by cases ids <;> rfl, ?_⟩
  obtain ⟨_, hp1⟩ := add_items_points_spec nrm s e data ids t1 rep sched1 he h1
  obtain ⟨_, hp2⟩ := add_items_points_spec nrm s e data ids t2 rep sched2 he h2
  rw [hp1, hp2]
  refine List.Perm.append_left e.points (List.Perm.map _ ?_)
  by_cases hep : s.ep_added
  · simpa [hep] using hperm
  · simpa [hep] using List.Perm.cons 0 hperm

/-- Witness for C3: the 3-row batch [5, 6, 7] inserted with schedules [1, 2] and
[2, 1] under requested thread counts 1 and 8 yields the same label-to-vector
multiset. -/
theorem addItems_labels_schedule_independent_witness :
    ((hnswlib_index_add_items id (some egInited) [5, 6, 7] egInited.dim none 1 false
        [1, 2]).enginePoints).Perm
      ((hnswlib_index_add_items id (some egInited) [5, 6, 7] egInited.dim none 8 false
        [2, 1]).enginePoints) :=
  (addItems_labels_schedule_independent id egInited (Engine.mk 10 100 16 0 [] [])
    [5, 6, 7] none 1 8 false [1, 2] [2, 1] (by decide) (by decide) (by decide)
    (by decide)).2

/-- C4: on an index whose entry point has not yet been added, add_items inserts row 0
sequentially (by the calling thread, lines 203-217) before the loop, and the
ParallelFor loop covers only the remaining rows 1 to rows-1 (start = 1); so the
insertion order always begins with row 0 and no worker-claimed row is row 0. -/
theorem addItems_entry_point_first {V : Type} [Inhabited V] (nrm : V → V) (s : HNSW V)
    (e : Engine V) (data : List V) (ids : Option (List Nat)) (t : Int) (rep : Bool)
    (sched : List Nat) (he : s.appr_alg = some e) (hep : s.ep_added = false)
    (hd : 1 ≤ data.length) (hcap : e.cur_element_count < e.max_elements_)
    (hperm : sched.Perm (List.range' 1 (data.length - 1))) :
    ((hnswlib_index_add_items nrm (some s) data s.dim ids t rep sched).trace).head?
        = some 0
    ∧ ∀ r ∈ ((hnswlib_index_add_items nrm (some s) data s.dim ids t rep sched).trace).tail,
        1 ≤ r ∧ r < data.length := by
  cases hap : Engine.addPoint e (rowVec nrm s.normalize data 0) (rowLabel ids s.cur_l 0) with
  | error er =>
      exfalso
      unfold Engine.addPoint at hap
      split at hap
      · omega
      · exact absurd hap (by simp)
  | ok e1 =>
      rcases hr : runRows nrm s.normalize data ids s.cur_l e1 sched with ⟨e2, ok2, done⟩
      have htr : (hnswlib_index_add_items nrm (some s) data s.dim ids t rep sched).trace
          = 0 :: done := by
        simp [hnswlib_index_add_items, he, hep, hap, hr]
      rw [htr]
      refine ⟨rfl, fun r hmem => ?_⟩
      have hs : r ∈ sched := by
        refine runRows_done_mem nrm s.normalize data ids s.cur_l sched e1 r ?_
        rw [hr]
        simpa using hmem
      have := hperm.mem_iff.mp hs
      rw [List.mem_range'_1] at this
      omega

/-- Witness for C4: inserting the batch [5, 6] into the fresh egInited index with
worker schedule [1] puts row 0 first, and the scheduled row 1 lies in bounds. -/
theorem addItems_entry_point_first_witness :
    ((hnswlib_index_add_items id (some egInited) [5, 6] egInited.dim none 1 false
        [1]).trace).head? = some 0
    ∧ (1 ≤ 1 ∧ 1 < [5, 6].length) :=
  ⟨(addItems_entry_point_first id egInited (Engine.mk 10 100 16 0 [] []) [5, 6] none 1
      false [1] (by decide) (by decide) (by decide) (by decide) (by decide)).1,
   (addItems_entry_point_first id egInited (Engine.mk 10 100 16 0 [] []) [5, 6] none 1
      false [1] (by decide) (by decide) (by decide) (by decide) (by decide)).2 1
      (by decide)⟩

lemma egCos_eq :
    (hnswlib_index_init (hnswlib_index_create Nat 8 SpaceType.Cosine 1) 100 16 200 1
      false).1 = some egCos := by decide

lemma bfAddPoint_ok_points {V : Type} (e : BFEngine V) (v : V) (id : Nat)
    (e1 : BFEngine V) (h : BFEngine.addPoint e v id = Except.ok e1) :
    e1.points = e.points ++ [(id, v)] := by
  unfold BFEngine.addPoint at h
  split at h
  · exact absurd h (by simp)
  · cases h
    rfl

lemma bfRunRows_ok_points {V : Type} [Inhabited V] (nrm : V → V) (nz : Bool)
    (data : List V) (ids : Option (List Nat)) (cur_l : Nat) (sched : List Nat) :
    ∀ (e : BFEngine V),
    (bfRunRows nrm nz data ids cur_l e sched).2 = true →
    (bfRunRows nrm nz data ids cur_l e sched).1.points =
      e.points ++ sched.map (fun row => (rowLabel ids cur_l row, rowVec nrm nz data row)) := by
  induction sched with
  | nil => intro e h; simp [bfRunRows]
  | cons r rs ih =>
      intro e h
      cases hap : BFEngine.addPoint e (rowVec nrm nz data r) (rowLabel ids cur_l r) with
      | error er => simp [bfRunRows, hap] at h
      | ok e1 =>
          have h1 : (bfRunRows nrm nz data ids cur_l e1 rs).2 = true := by
            simpa [bfRunRows, hap] using h
          have hp := ih e1 h1
          have hpts := bfAddPoint_ok_points e _ _ e1 hap
          simp [bfRunRows, hap, hp, hpts, List.append_assoc]

lemma bf_add_items_points {V : Type} [Inhabited V] (nrm : V → V) (s : BF V)
    (e : BFEngine V) (data : List V) (ids : Option (List Nat)) (he : s.alg = some e)
    (hok : (hnswlib_bf_index_add_items nrm (some s) data s.dim ids).2 = true) :
    bfEnginePoints (hnswlib_bf_index_add_items nrm (some s) data s.dim ids).1
      = e.points ++ (List.range data.length).map
          (fun row => (rowLabel ids s.cur_l row, rowVec nrm s.normalize data row)) := by
  rcases hr : bfRunRows nrm s.normalize data ids s.cur_l e (List.range data.length) with
    ⟨e2, ok2⟩
  simp [hnswlib_bf_index_add_items, he, hr] at hok
  have hp := bfRunRows_ok_points nrm s.normalize data ids s.cur_l (List.range data.length)
    e (by rw [hr]; exact hok)
  rw [hr] at hp
  simp only at hp
  simp [hnswlib_bf_index_add_items, he, hr, bfEnginePoints, hp]

/-- C6: a cosine-mode index (and only a cosine-mode index) has the normalize flag set
at construction, on both index types (lines 97-100 and 136-139); on such an index
every vector handed to the engine at insertion is normalize_vector of the raw row,
never the raw row itself (lines 204-234 for the graph index, 435-441 for the
brute-force index), and a batch search computes every per-query block from the
normalized query, which is exactly a plain search over the normalized query batch
(lines 273-292 and 463-468); with normalize unset (L2 and IP modes) the raw vectors
are used. -/
theorem cosine_normalizes_insert_and_query {V : Type} [Inhabited V] (hw d : Int)
    (hd : 0 < d) (dist : V → V → Int) (nrm : V → V) (k : Nat) (queries : List V)
    (s : HNSW V) (e : Engine V) (data : List V) (ids : Option (List Nat)) (t : Int)
    (rep : Bool) (sched : List Nat) (sb : BF V) (eb : BFEngine V) (datab : List V)
    (idsb : Option (List Nat)) (he : s.appr_alg = some e) (hn : s.normalize = true)
    (hok : (hnswlib_index_add_items nrm (some s) data s.dim ids t rep sched).ok = true)
    (heb : sb.alg = some eb) (hnb : sb.normalize = true)
    (hokb : (hnswlib_bf_index_add_items nrm (some sb) datab sb.dim idsb).2 = true) :
    (hnswlib_index_create V hw SpaceType.Cosine d).map HNSW.normalize = some true
    ∧ (hnswlib_index_create V hw SpaceType.L2 d).map HNSW.normalize = some false
    ∧ (hnswlib_index_create V hw SpaceType.IP d).map HNSW.normalize = some false
    ∧ (hnswlib_bf_index_create V hw SpaceType.Cosine d).map BF.normalize = some true
    ∧ (hnswlib_bf_index_create V hw SpaceType.L2 d).map BF.normalize = some false
    ∧ (hnswlib_bf_index_create V hw SpaceType.IP d).map BF.normalize = some false
    ∧ (hnswlib_index_add_items nrm (some s) data s.dim ids t rep sched).enginePoints
        = e.points
          ++ ((hnswlib_index_add_items nrm (some s) data s.dim ids t rep sched).trace).map
              (fun row => (rowLabel ids s.cur_l row, nrm (data.getD row default)))
    ∧ bfEnginePoints (hnswlib_bf_index_add_items nrm (some sb) datab sb.dim idsb).1
        = eb.points
          ++ (List.range datab.length).map
              (fun row => (rowLabel idsb sb.cur_l row, nrm (datab.getD row default)))
    ∧ searchQueries dist nrm true e k queries
        = searchQueries dist nrm false e k (queries.map nrm)
    ∧ bfSearchQueries dist nrm true eb k queries
        = bfSearchQueries dist nrm false eb k (queries.map nrm) := by
  have hdle : ¬ d ≤ 0 := not_le.mpr hd
  refine ⟨?_, ?_, ?_, ?_, ?_, ?_, ?_, ?_, ?_, ?_⟩
  · simp [hnswlib_index_create, HNSW.make, mkSpace, hdle]
  · simp [hnswlib_index_create, HNSW.make, mkSpace, hdle]
  · simp [hnswlib_index_create, HNSW.make, mkSpace, hdle]
  · simp [hnswlib_bf_index_create, BF.make, mkSpace, hdle]
  · simp [hnswlib_bf_index_create, BF.make, mkSpace, hdle]
  · simp [hnswlib_bf_index_create, BF.make, mkSpace, hdle]
  · obtain ⟨htr, hp⟩ := add_items_points_spec nrm s e data ids t rep sched he hok
    rw [hp, htr]
    have : ∀ row, rowVec nrm s.normalize data row = nrm (data.getD row default) := by
      intro row
      simp [rowVec, hn]
    simp [this]
  · have hp := bf_add_items_points nrm sb eb datab idsb heb hokb
    rw [hp]
    have : ∀ row, rowVec nrm sb.normalize datab row = nrm (datab.getD row default) := by
      intro row
      simp [rowVec, hnb]
    simp [this]
  · induction queries with
    | nil => rfl
    | cons q qs ih =>
        simp only [searchQueries, List.map_cons, ih]
        simp
  · induction queries with
    | nil => rfl
    | cons q qs ih =>
        simp only [bfSearchQueries, List.map_cons, ih]
        simp

/-- Witness for C6: with nrm n = n + 1000, inserting the raw row 3 into a concrete
cosine index of either type stores the normalized vector 1003 under label 0, and a
cosine search over the query batch [4] equals the plain search over the normalized
batch [1004] on both index types. -/
theorem cosine_normalizes_insert_and_query_witness :
    (hnswlib_index_create Nat 8 SpaceType.Cosine 1).map HNSW.normalize = some true
    ∧ (hnswlib_index_create Nat 8 SpaceType.L2 1).map HNSW.normalize = some false
    ∧ (hnswlib_index_create Nat 8 SpaceType.IP 1).map HNSW.normalize = some false
    ∧ (hnswlib_bf_index_create Nat 8 SpaceType.Cosine 1).map BF.normalize = some true
    ∧ (hnswlib_bf_index_create Nat 8 SpaceType.L2 1).map BF.normalize = some false
    ∧ (hnswlib_bf_index_create Nat 8 SpaceType.IP 1).map BF.normalize = some false
    ∧ (hnswlib_index_add_items (fun n => n + 1000) (some egCos) [3] egCos.dim none 1
          false []).enginePoints
        = (Engine.mk 10 100 16 0 ([] : List (Nat × Nat)) []).points
          ++ ((hnswlib_index_add_items (fun n => n + 1000) (some egCos) [3] egCos.dim
                none 1 false []).trace).map
              (fun row => (rowLabel none egCos.cur_l row,
                (fun n => n + 1000) ([3].getD row default)))
    ∧ bfEnginePoints (hnswlib_bf_index_add_items (fun n => n + 1000) (some egBFCos) [3]
          egBFCos.dim none).1
        = (BFEngine.mk 10 0 ([] : List (Nat × Nat))).points
          ++ (List.range ([3] : List Nat).length).map
              (fun row => (rowLabel none egBFCos.cur_l row,
                (fun n => n + 1000) ([3].getD row default)))
    ∧ searchQueries egDist (fun n => n + 1000) true
          (Engine.mk 10 100 16 0 [] []) 0 [4]
        = searchQueries egDist (fun n => n + 1000) false
          (Engine.mk 10 100 16 0 [] []) 0 ([4].map (fun n => n + 1000))
    ∧ bfSearchQueries egDist (fun n => n + 1000) true (BFEngine.mk 10 0 []) 0 [4]
        = bfSearchQueries egDist (fun n => n + 1000) false (BFEngine.mk 10 0 []) 0
          ([4].map (fun n => n + 1000)) :=
  cosine_normalizes_insert_and_query 8 1 (by decide) egDist
    (fun n => n + 1000) 0 [4] egCos (Engine.mk 10 100 16 0 [] []) [3] none 1 false []
    egBFCos (BFEngine.mk 10 0 []) [3] none
    (by decide) (by decide) (by decide) (by decide) (by decide) (by decide)

lemma engineSearchKnn_length {V : Type} (dist : V → V → Int) (e : Engine V) (q : V)
    (k : Nat) :
    (engineSearchKnn dist e q k).length = min k (liveEntries e).length := by
  simp [engineSearchKnn, List.length_take, List.length_insertionSort, List.length_map]

lemma engineSearchKnn_sorted {V : Type} (dist : V → V → Int) (e : Engine V) (q : V)
    (k : Nat) : List.Sorted distLE (engineSearchKnn dist e q k) :=
  (List.sorted_insertionSort distLE _).sublist (List.take_sublist k _)

lemma engineSearchKnn_mem {V : Type} (dist : V → V → Int) (e : Engine V) (q : V)
    (k : Nat) (p : Int × Nat) (h : p ∈ engineSearchKnn dist e q k) :
    (∃ v, (p.2, v) ∈ e.points) ∧ p.2 ∉ e.deleted := by
  unfold engineSearchKnn at h
  have h1 := List.mem_of_mem_take h
  have h2 := (List.perm_insertionSort distLE _).mem_iff.mp h1
  obtain ⟨entry, hentry, hfe⟩ := List.mem_map.mp h2
  unfold liveEntries at hentry
  rw [List.mem_filter] at hentry
  obtain ⟨hpts, hflt⟩ := hentry
  have hsnd : p.2 = entry.1 := by rw [← hfe]
  constructor
  · exact ⟨entry.2, by rw [hsnd]; simpa using hpts⟩
  · rw [hsnd]
    simpa using hflt

lemma searchOneQueryVec_some {V : Type} (dist : V → V → Int) (e : Engine V) (k : Nat)
    (qv : V) (b : List (Int × Nat)) (h : searchOneQueryVec dist e k qv = some b) :
    b.length = k ∧ List.Sorted distLE b
    ∧ ∀ p ∈ b, (∃ v, (p.2, v) ∈ e.points) ∧ p.2 ∉ e.deleted := by
  simp only [searchOneQueryVec] at h
  by_cases hlen : (engineSearchKnn dist e qv k).length = k
  · rw [if_pos hlen] at h
    have hb : b = engineSearchKnn dist e qv k := by
      cases h
      simp [fillBlock, heapPops]
    subst hb
    exact ⟨hlen, engineSearchKnn_sorted dist e qv k,
      fun p hp => engineSearchKnn_mem dist e qv k p hp⟩
  · rw [if_neg hlen] at h
    exact absurd h (by simp)

lemma searchQueries_some {V : Type} (dist : V → V → Int) (nrm : V → V) (nz : Bool)
    (e : Engine V) (k : Nat) (queries : List V) : ∀ (blocks : List (List (Int × Nat))),
    searchQueries dist nrm nz e k queries = some blocks →
    blocks.length = queries.length
    ∧ ∀ b ∈ blocks, ∃ qv, searchOneQueryVec dist e k qv = some b := by
  induction queries with
  | nil =>
      intro blocks h
      simp [searchQueries] at h
      subst h
      exact ⟨rfl, by simp⟩
  | cons q qs ih =>
      intro blocks h
      unfold searchQueries at h
      cases h1 : searchOneQueryVec dist e k (if nz then nrm q else q) with
      | none => rw [h1] at h; exact absurd h (by simp)
      | some b =>
          rw [h1] at h
          cases h2 : searchQueries dist nrm nz e k qs with
          | none => rw [h2] at h; exact absurd h (by simp)
          | some bs =>
              rw [h2] at h
              have hb : blocks = b :: bs := by cases h; rfl
              subst hb
              obtain ⟨hlen, hall⟩ := ih bs h2
              refine ⟨by simp [hlen], fun blk hblk => ?_⟩
              rcases List.mem_cons.mp hblk with hblk | hblk
              · exact ⟨if nz then nrm q else q, by rw [← hblk] at h1; exact h1⟩
              · exact hall blk hblk

/-- C1: every successful search_knn call with k ≥ 1 yields one block per query, each
block holding exactly k (distance, label) pairs sorted by non-decreasing distance
(the result-size check at lines 262-264 and the back-to-front pop loop at
lines 266-271), and every returned label belongs to a stored, currently
non-tombstoned node (the engine, modelled from the spec, only returns live
entries). -/
theorem searchKnn_blocks_sorted_live {V : Type} (dist : V → V → Int) (nrm : V → V)
    (idx : Option (HNSW V)) (queries : List V) (k : Nat) (t : Int)
    (blocks : List (List (Int × Nat))) (e : Engine V) (he : engineOf idx = some e)
    (hk : 1 ≤ k)
    (hres : hnswlib_index_search_knn dist nrm idx queries k t = some blocks) :
    blocks.length = queries.length
    ∧ ∀ b ∈ blocks, b.length = k ∧ List.Sorted distLE b
        ∧ ∀ p ∈ b, (∃ v, (p.2, v) ∈ e.points) ∧ p.2 ∉ e.deleted := by
  cases idx with
  | none => simp [engineOf] at he
  | some s =>
      simp only [engineOf] at he
      rw [hnswlib_index_search_knn, he] at hres
      obtain ⟨hlen, hall⟩ := searchQueries_some dist nrm s.normalize e k queries blocks hres
      refine ⟨hlen, fun b hb => ?_⟩
      obtain ⟨qv, hqv⟩ := hall b hb
      exact searchOneQueryVec_some dist e k qv b hqv

lemma egSearch_eq :
    hnswlib_index_mark_deleted
      (hnswlib_index_add_items id (some egInited) [5, 9] egInited.dim none 1 false
        [1]).index 1 = some egSearch := by decide

/-- Witness for C1: searching egSearch (points 5 and 9, label 1 tombstoned) for the
single query 5 with k = 1 succeeds with the one-pair block [(0, 0)]: one block per
query, block length 1, sorted, and label 0 is a stored non-tombstoned node. -/
theorem searchKnn_blocks_sorted_live_witness :
    ([[((0 : Int), (0 : Nat))]]).length = ([5] : List Nat).length
    ∧ ([((0 : Int), (0 : Nat))]).length = 1
    ∧ List.Sorted distLE [((0 : Int), (0 : Nat))]
    ∧ (∃ v, ((((0 : Int), (0 : Nat))).2, v) ∈ egEngine.points)
    ∧ (((0 : Int), (0 : Nat))).2 ∉ egEngine.deleted := by
  obtain ⟨h1, h2⟩ := searchKnn_blocks_sorted_live egDist id (some egSearch) [5] 1 1
    [[(0, 0)]] egEngine (by decide) (by decide) (by decide)
  have hb := h2 [(0, 0)] (by decide)
  exact ⟨h1, hb.1, hb.2.1, (hb.2.2 (0, 0) (by decide)).1, (hb.2.2 (0, 0) (by decide)).2⟩

lemma searchOneQueryVec_insufficient {V : Type} (dist : V → V → Int) (e : Engine V)
    (k : Nat) (qv : V) (hlt : (liveEntries e).length < k) :
    searchOneQueryVec dist e k qv = none := by
  unfold searchOneQueryVec
  rw [if_neg]
  rw [engineSearchKnn_length]
  omega

/-- C2: when the engine assembles fewer than k live candidates for a query of the
batch, the whole search_knn call fails (the wrapper throws "Cannot return results"
at lines 262-264 / 282-284, ParallelFor rethrows, and the entry point returns false
at lines 296-299) instead of returning a short block for that query. -/
theorem searchKnn_insufficient_fails {V : Type} (dist : V → V → Int) (nrm : V → V)
    (idx : Option (HNSW V)) (queries : List V) (k : Nat) (t : Int) (e : Engine V)
    (x : V) (he : engineOf idx = some e) (hx : x ∈ queries)
    (hlt : (liveEntries e).length < k) :
    hnswlib_index_search_knn dist nrm idx queries k t = none := by
  cases idx with
  | none => simp [engineOf] at he
  | some s =>
      simp only [engineOf] at he
      cases queries with
      | nil => simp at hx
      | cons q qs =>
          rw [hnswlib_index_search_knn, he]
          simp only [searchQueries, searchOneQueryVec_insufficient dist e k _ hlt]

/-- Witness for C2: egSearch holds a single live point, so a search with k = 5 over
the query batch [5] fails as a whole. -/
theorem searchKnn_insufficient_fails_witness :
    hnswlib_index_search_knn egDist id (some egSearch) [5] 5 1 = none :=
  searchKnn_insufficient_fails egDist id (some egSearch) [5] 5 1 egEngine 5 (by decide)
    (by decide) (by decide)

lemma pfRun_invariant {E : Type} (fn : Nat → Except E Unit) (endIdx : Nat)
    (P : PFState E → Prop) (hstep : ∀ s t, P s → P (pfStep fn endIdx s t)) :
    ∀ (sched : List Nat) (s : PFState E), P s → P (sched.foldl (pfStep fn endIdx) s) := by
  intro sched
  induction sched with
  | nil => intro s h; exact h
  | cons t ts ih => intro s h; exact ih _ (hstep s t h)

lemma pfStep_currentInv {E : Type} (fn : Nat → Except E Unit) (endIdx : Nat)
    (s : PFState E) (t : Nat) (h : s.obs ≠ [] → endIdx ≤ s.current) :
    (pfStep fn endIdx s t).obs ≠ [] → endIdx ≤ (pfStep fn endIdx s t).current := by
  cases hw : s.workers.getD t WStat.finished with
  | idle =>
      simp only [pfStep, hw]
      split
      · intro hobs
        have := h hobs
        show endIdx ≤ s.current + 1
        omega
      · intro hobs
        have := h hobs
        show endIdx ≤ s.current + 1
        omega
  | running id =>
      cases hfn : fn id with
      | ok u =>
          simp only [pfStep, hw, hfn]
          exact h
      | error er =>
          simp only [pfStep, hw, hfn]
          intro hobs
          exact le_refl endIdx
  | finished =>
      simp only [pfStep, hw]
      exact h

lemma pfStep_lastObs {E : Type} (fn : Nat → Except E Unit) (endIdx : Nat)
    (s : PFState E) (t : Nat) (h : s.lastException = s.obs.getLast?) :
    (pfStep fn endIdx s t).lastException = (pfStep fn endIdx s t).obs.getLast? := by
  cases hw : s.workers.getD t WStat.finished with
  | idle =>
      simp only [pfStep, hw]
      split
      · exact h
      · exact h
  | running id =>
      cases hfn : fn id with
      | ok u =>
          simp only [pfStep, hw, hfn]
          exact h
      | error er =>
          simp only [pfStep, hw, hfn]
          rw [List.getLast?_concat]
  | finished =>
      simp only [pfStep, hw]
      exact h

lemma pfStep_no_new_dispatch {E : Type} (fn : Nat → Except E Unit) (endIdx : Nat)
    (s : PFState E) (t id : Nat) (hcur : endIdx ≤ s.current)
    (h : WStat.running id ∈ (pfStep fn endIdx s t).workers) :
    WStat.running id ∈ s.workers := by
  cases hw : s.workers.getD t WStat.finished with
  | idle =>
      simp only [pfStep, hw, if_pos hcur] at h
      rcases List.mem_or_eq_of_mem_set h with h | h
      · exact h
      · exact absurd h (by simp)
  | running id2 =>
      cases hfn : fn id2 with
      | ok u =>
          simp only [pfStep, hw, hfn] at h
          rcases List.mem_or_eq_of_mem_set h with h | h
          · exact h
          · exact absurd h (by simp)
      | error er =>
          simp only [pfStep, hw, hfn] at h
          rcases List.mem_or_eq_of_mem_set h with h | h
          · exact h
          · exact absurd h (by simp)
  | finished =>
      simp only [pfStep, hw] at h
      exact h

/-- C8 counterexample: with 2 workers over units {0, 1} where unit 0 fails with
error 10 and unit 1 with error 20, the interleaving in which both workers claim
before either completes makes worker 0 observe its failure first (obs = [10, 20]),
yet the call propagates error 20 — the most recently recorded failure (the variable
is literally named lastException and each catch overwrites it, lines 41-42) — not
the first observed failure 10. -/
theorem parallelFor_propagates_last_not_first :
    (pfRun fnC8 0 2 2 [0, 1, 0, 1]).obs = [10, 20]
    ∧ pfResult (pfRun fnC8 0 2 2 [0, 1, 0, 1]) = Except.error 20
    ∧ ¬ pfResult (pfRun fnC8 0 2 2 [0, 1, 0, 1]) = Except.error 10 := by
  refine ⟨by decide, rfl, ?_⟩
  have hres : pfResult (pfRun fnC8 0 2 2 [0, 1, 0, 1]) = Except.error 20 := rfl
  rw [hres]
  simp

/-- C8 amended: after a failure is observed, the executor stops dispatching new
units (the cursor is forced to at least end, and a worker that tries to claim with
the cursor past end leaves without starting a new unit, so in-flight units are the
only ones that still complete), every worker is joined before the outcome is read,
and the call propagates the LAST observed failure — which is the first one exactly
when a single failure is observed. -/
theorem parallelFor_stops_dispatch_propagates_last {E : Type} (fn : Nat → Except E Unit)
    (start endIdx numThreads : Nat) (sched : List Nat) :
    ((pfRun fn start endIdx numThreads sched).obs ≠ [] →
        endIdx ≤ (pfRun fn start endIdx numThreads sched).current)
    ∧ (pfRun fn start endIdx numThreads sched).lastException
        = (pfRun fn start endIdx numThreads sched).obs.getLast?
    ∧ ∀ (s : PFState E) (t id : Nat), endIdx ≤ s.current →
        WStat.running id ∈ (pfStep fn endIdx s t).workers →
        WStat.running id ∈ s.workers := by
  refine ⟨?_, ?_, fun s t id hcur h => pfStep_no_new_dispatch fn endIdx s t id hcur h⟩
  · have := pfRun_invariant fn endIdx (fun st => st.obs ≠ [] → endIdx ≤ st.current)
      (fun st t h => pfStep_currentInv fn endIdx st t h) sched
      (PFState.mk start none [] (List.replicate numThreads WStat.idle))
      (by intro h; simp at h)
    simpa [pfRun] using this
  · have := pfRun_invariant fn endIdx (fun st => st.lastException = st.obs.getLast?)
      (fun st t h => pfStep_lastObs fn endIdx st t h) sched
      (PFState.mk start none [] (List.replicate numThreads WStat.idle)) rfl
    simpa [pfRun] using this

/-- Witness for the amended C8: a run in which worker 0 fails on unit 0 forces the
cursor to the end of the range, the propagated slot equals the last observation, and
a worker claiming past the end starts no new unit. -/
theorem parallelFor_stops_dispatch_witness :
    2 ≤ (pfRun fnC8 0 2 2 [0, 0]).current
    ∧ (pfRun fnC8 0 2 2 [0, 0]).lastException = (pfRun fnC8 0 2 2 [0, 0]).obs.getLast?
    ∧ WStat.running 5
        ∈ (PFState.mk 3 (none : Option Nat) [] [WStat.running 5, WStat.idle]).workers :=
  ⟨(parallelFor_stops_dispatch_propagates_last fnC8 0 2 2 [0, 0]).1 (by decide),
   (parallelFor_stops_dispatch_propagates_last fnC8 0 2 2 [0, 0]).2.1,
   (parallelFor_stops_dispatch_propagates_last fnC8 0 2 2 [0, 0]).2.2
     (PFState.mk 3 none [] [WStat.running 5, WStat.idle]) 1 5 (by decide) (by decide)⟩
